import Mathlib

/-!
Verification development for the CoTrading-FE streaming chat client.

The definitions below are a shallow embedding of the three source files:
  * `src/api/sse.ts` — the event stream adapter (`openConversationStream`);
  * the chat component (unnamed source file) — the transcript aggregator
    (`updateLastAssistantPart`, `handleStreamPayload`), the payload
    normalizer (`ensureString`, `extractStreamText`, `extractFinalText`),
    and the session controller (`sendMessage`, `loadMessages`, `openStream`).

JavaScript values reaching these functions are JSON values (stream frames
are produced by `JSON.parse`) plus `undefined` from failed property
lookups, so the value universe is modelled by `JsonValue` below.  Numbers
are kept as their source lexemes: the code never reads a numeric value,
it only tests truthiness, so the lexeme (with a zero test) is enough.
-/

/-- A JavaScript value as seen by the chat client: the JSON universe plus
`undefined` (the result of a missed property lookup). -/
inductive JsonValue where
  | str (s : String)
  | num (lex : String)
  | bool (b : Bool)
  | null
  | jsUndefined
  | arr (elems : List JsonValue)
  | obj (fields : List (String × JsonValue))

mutual

/-- Structural size of a value; used to pick sufficient fuel for the
recursions that mirror JavaScript's unbounded recursion. -/
def jsize : JsonValue → Nat
  | .str s => s.length + 1
  | .num _ => 1
  | .bool _ => 1
  | .null => 1
  | .jsUndefined => 1
  | .arr xs => jsizeList xs + 1
  | .obj fs => jsizeFields fs + 1

/-- Size of a list of values. -/
def jsizeList : List JsonValue → Nat
  | [] => 0
  | v :: vs => jsize v + jsizeList vs

/-- Size of an object's field list. -/
def jsizeFields : List (String × JsonValue) → Nat
  | [] => 0
  | (_, v) :: fs => jsize v + jsizeFields fs

end

/-- Property lookup `v?.k`: `undefined` on non-objects and missing keys.
On duplicate keys the later entry wins, as in JavaScript objects. -/
def getField (v : JsonValue) (k : String) : JsonValue :=
  match v with
  | .obj fs =>
    match fs.reverse.find? (fun kv => kv.1 == k) with
    | some kv => kv.2
    | none => .jsUndefined
  | _ => .jsUndefined

/-- Is the mantissa of a JSON number lexeme all zeros (the value is `0`)? -/
def numIsZero (lex : String) : Bool :=
  ((lex.data.takeWhile (fun c => !(c == 'e' || c == 'E'))).filter
    Char.isDigit).all (fun c => c == '0')

/-- JavaScript truthiness test (`!v` is `isFalsy v`). -/
def isFalsy : JsonValue → Bool
  | .str s => s == ""
  | .num lex => numIsZero lex
  | .bool b => !b
  | .null => true
  | .jsUndefined => true
  | .arr _ => false
  | .obj _ => false

/-- The nullish-coalescing operator `a ?? b`. -/
def nullish (a b : JsonValue) : JsonValue :=
  match a with
  | .null => b
  | .jsUndefined => b
  | _ => a

/-- Strict equality `v === "t"` against a string literal. -/
def isStrEq (v : JsonValue) (t : String) : Bool :=
  match v with
  | .str s => s == t
  | _ => false

/-- Join a list of strings with commas (JavaScript `Array.prototype.join`). -/
def strJoinComma : List String → String
  | [] => ""
  | [s] => s
  | s :: rest => s ++ "," ++ strJoinComma rest

/-- Concatenation of a list of strings (JavaScript `join("")`). -/
def strConcat : List String → String
  | [] => ""
  | s :: rest => s ++ strConcat rest

/-- JavaScript string conversion, fuelled for the nested-array case.
Number formatting keeps the source lexeme; the client only ever compares
the result against alphabetic event names, which no number lexeme equals. -/
def jsToStringFuel : Nat → JsonValue → String
  | _, .str s => s
  | _, .num lex => lex
  | _, .bool b => if b then "true" else "false"
  | _, .null => "null"
  | _, .jsUndefined => "undefined"
  | _, .obj _ => "[object Object]"
  | 0, .arr _ => ""
  | fuel + 1, .arr xs =>
    strJoinComma (xs.map (fun x =>
      match x with
      | .null => ""
      | .jsUndefined => ""
      | v => jsToStringFuel fuel v))

/-- JavaScript `String(v)` / `v.toString()` on the values the client meets. -/
def jsToString (v : JsonValue) : String :=
  jsToStringFuel (jsize v) v

/-- JavaScript whitespace, as recognised by `trim` and the regex class. -/
def isJsSpace (c : Char) : Bool :=
  c == ' ' || c == '\t' || c == '\n' || c == '\r' || c == '\x0b' ||
  c == '\x0c' || c == '\xa0' || c == ' ' || c == ' ' || c == '﻿'

/-- JavaScript `String.prototype.trim`. -/
def jsTrim (s : String) : String :=
  String.mk (((s.data.dropWhile isJsSpace).reverse.dropWhile isJsSpace).reverse)

/-- Does the character list start with the given character? -/
def headIs (cs : List Char) (c : Char) : Bool :=
  match cs with
  | c2 :: _ => c2 == c
  | [] => false

/-- Replace every (non-overlapping, left-to-right) occurrence of `pat` by
`rep`, as `String.prototype.replace` with a global literal regex does. -/
def replaceSeq (pat rep : List Char) : Nat → List Char → List Char
  | 0, cs => cs
  | _ + 1, [] => []
  | fuel + 1, c :: rest =>
    if pat.isPrefixOf (c :: rest) then
      rep ++ replaceSeq pat rep fuel ((c :: rest).drop pat.length)
    else
      c :: replaceSeq pat rep fuel rest

/-- `normalizeEscapes` from the source: turn literal `\n` and `\t`
escape sequences into real newline and tab characters. -/
def normalizeEscapes (s : String) : String :=
  let a := replaceSeq ['\\', 'n'] ['\n'] s.data.length s.data
  String.mk (replaceSeq ['\\', 't'] ['\t'] a.length a)

/-- Try to match `'text':\s*'([^']*)'` at the head of the input; on
success return the captured group and the input after the match. -/
def pyMatchAt (cs : List Char) : Option (String × List Char) :=
  match cs with
  | '\x27' :: 't' :: 'e' :: 'x' :: 't' :: '\x27' :: ':' :: rest =>
    match rest.dropWhile isJsSpace with
    | '\x27' :: body =>
      let grp := body.takeWhile (fun c => !(c == '\x27'))
      match body.dropWhile (fun c => !(c == '\x27')) with
      | '\x27' :: rest2 => some (String.mk grp, rest2)
      | _ => none
    | _ => none
  | _ => none

/-- All matches of `'text':\s*'([^']*)'` in left-to-right scan order,
continuing after each match (JavaScript `matchAll` semantics). -/
def pyScan : Nat → List Char → List String
  | 0, _ => []
  | _ + 1, [] => []
  | fuel + 1, c :: rest =>
    match pyMatchAt (c :: rest) with
    | some (grp, rest2) => grp :: pyScan fuel rest2
    | none => pyScan fuel rest

/-- Try to match `content='([^']+)'` at the head of the input. -/
def contentMatchAt (cs : List Char) : Option String :=
  match cs with
  | 'c' :: 'o' :: 'n' :: 't' :: 'e' :: 'n' :: 't' :: '=' :: '\x27' :: body =>
    let grp := body.takeWhile (fun c => !(c == '\x27'))
    if grp.isEmpty then none
    else
      match body.dropWhile (fun c => !(c == '\x27')) with
      | '\x27' :: _ => some (String.mk grp)
      | _ => none
  | _ => none

/-- First match of `content='([^']+)'` anywhere in the input. -/
def contentScan : List Char → Option String
  | [] => none
  | c :: rest =>
    match contentMatchAt (c :: rest) with
    | some grp => some grp
    | none => contentScan rest

/-- `extractTextFromPythonLiteral` from the source: concatenate all
`'text': '...'` fragments, else take a single `content='...'` fragment. -/
def extractTextFromPythonLiteral (raw : String) : Option String :=
  let ms := pyScan raw.data.length raw.data
  if ms.isEmpty then
    match contentScan raw.data with
    | some grp => some (normalizeEscapes grp)
    | none => none
  else
    some (normalizeEscapes (strConcat ms))

/-- Value of a hexadecimal digit. -/
def hexVal (c : Char) : Option Nat :=
  if c.isDigit then some (c.toNat - 48)
  else if 'a' ≤ c && c ≤ 'f' then some (c.toNat - 87)
  else if 'A' ≤ c && c ≤ 'F' then some (c.toNat - 55)
  else none

/-- Decode one JSON string escape (the character after the backslash). -/
def parseEscape : List Char → Option (Char × List Char)
  | [] => none
  | c :: rest =>
    if c == '"' then some ('"', rest)
    else if c == '\\' then some ('\\', rest)
    else if c == '/' then some ('/', rest)
    else if c == 'b' then some ('\x08', rest)
    else if c == 'f' then some ('\x0c', rest)
    else if c == 'n' then some ('\n', rest)
    else if c == 'r' then some ('\r', rest)
    else if c == 't' then some ('\t', rest)
    else if c == 'u' then
      match rest with
      | a :: b :: c2 :: d :: rest2 =>
        match hexVal a, hexVal b, hexVal c2, hexVal d with
        | some ha, some hb, some hc, some hd =>
          some (Char.ofNat (((ha * 16 + hb) * 16 + hc) * 16 + hd), rest2)
        | _, _, _, _ => none
      | _ => none
    else none

/-- Parse the body of a JSON string literal (after the opening quote),
returning the decoded string and the input after the closing quote. -/
def parseStringBody : Nat → List Char → Option (String × List Char)
  | 0, _ => none
  | _ + 1, [] => none
  | fuel + 1, c :: rest =>
    if c == '"' then some ("", rest)
    else if c == '\\' then
      match parseEscape rest with
      | some (ec, rest2) =>
        match parseStringBody fuel rest2 with
        | some (s, rest3) => some (String.mk (ec :: s.data), rest3)
        | none => none
      | none => none
    else if c.toNat < 32 then none
    else
      match parseStringBody fuel rest with
      | some (s, rest3) => some (String.mk (c :: s.data), rest3)
      | none => none

/-- JSON whitespace (the four characters allowed between tokens). -/
def isJsonWs (c : Char) : Bool :=
  c == ' ' || c == '\t' || c == '\n' || c == '\r'

/-- Skip JSON whitespace. -/
def skipWs (cs : List Char) : List Char :=
  cs.dropWhile isJsonWs

/-- Parse the exponent part of a JSON number, if present. -/
def parseExpPart (cs : List Char) : Option (List Char × List Char) :=
  match cs with
  | [] => some ([], [])
  | c :: rest =>
    if c == 'e' || c == 'E' then
      let (sgn, rest2) :=
        match rest with
        | s :: r => if s == '+' || s == '-' then ([s], r) else ([], rest)
        | [] => ([], ([] : List Char))
      let ds := rest2.takeWhile Char.isDigit
      if ds.isEmpty then none
      else some (c :: (sgn ++ ds), rest2.dropWhile Char.isDigit)
    else some ([], cs)

/-- Parse the fraction and exponent parts of a JSON number, if present. -/
def parseFracExp (cs : List Char) : Option (List Char × List Char) :=
  match cs with
  | '.' :: rest =>
    let ds := rest.takeWhile Char.isDigit
    if ds.isEmpty then none
    else
      match parseExpPart (rest.dropWhile Char.isDigit) with
      | some (es, rest3) => some ('.' :: ds ++ es, rest3)
      | none => none
  | _ =>
    match parseExpPart cs with
    | some (es, rest3) => some (es, rest3)
    | none => none

/-- Parse a JSON number, keeping its lexeme. -/
def parseNumberLex (cs : List Char) : Option (String × List Char) :=
  let (sign, cs1) :=
    match cs with
    | '-' :: rest => (['-'], rest)
    | _ => (([] : List Char), cs)
  match cs1 with
  | '0' :: rest =>
    match parseFracExp rest with
    | some (fe, rest2) => some (String.mk (sign ++ '0' :: fe), rest2)
    | none => none
  | c :: rest =>
    if c.isDigit then
      let ds := rest.takeWhile Char.isDigit
      match parseFracExp (rest.dropWhile Char.isDigit) with
      | some (fe, rest2) => some (String.mk (sign ++ c :: (ds ++ fe)), rest2)
      | none => none
    else none
  | [] => none

mutual

/-- Recursive-descent JSON parser, mirroring `JSON.parse` (strict: no
trailing commas, no comments, full-input consumption checked by the
wrapper).  The fuel decreases on every recursive call; the wrapper passes
more fuel than any input can consume. -/
def parseValue : Nat → List Char → Option (JsonValue × List Char)
  | 0, _ => none
  | fuel + 1, cs =>
    match skipWs cs with
    | [] => none
    | c :: rest =>
      if c == '"' then
        match parseStringBody rest.length rest with
        | some (s, rest2) => some (.str s, rest2)
        | none => none
      else if c == '\x7b' then
        match skipWs rest with
        | '\x7d' :: rest2 => some (.obj [], rest2)
        | _ =>
          match parseMembers fuel rest [] with
          | some (fs, rest2) => some (.obj fs, rest2)
          | none => none
      else if c == '[' then
        match skipWs rest with
        | ']' :: rest2 => some (.arr [], rest2)
        | _ =>
          match parseItems fuel rest [] with
          | some (vs, rest2) => some (.arr vs, rest2)
          | none => none
      else if c == 't' then
        match rest with
        | 'r' :: 'u' :: 'e' :: rest2 => some (.bool true, rest2)
        | _ => none
      else if c == 'f' then
        match rest with
        | 'a' :: 'l' :: 's' :: 'e' :: rest2 => some (.bool false, rest2)
        | _ => none
      else if c == 'n' then
        match rest with
        | 'u' :: 'l' :: 'l' :: rest2 => some (.null, rest2)
        | _ => none
      else if c == '-' || c.isDigit then
        match parseNumberLex (c :: rest) with
        | some (lex, rest2) => some (.num lex, rest2)
        | none => none
      else none

/-- Parse the elements of a non-empty JSON array. -/
def parseItems : Nat → List Char → List JsonValue → Option (List JsonValue × List Char)
  | 0, _, _ => none
  | fuel + 1, cs, acc =>
    match parseValue fuel cs with
    | none => none
    | some (v, rest) =>
      match skipWs rest with
      | ',' :: rest2 => parseItems fuel rest2 (v :: acc)
      | ']' :: rest2 => some ((v :: acc).reverse, rest2)
      | _ => none

/-- Parse the members of a non-empty JSON object. -/
def parseMembers : Nat → List Char → List (String × JsonValue) → Option (List (String × JsonValue) × List Char)
  | 0, _, _ => none
  | fuel + 1, cs, acc =>
    match skipWs cs with
    | '"' :: rest =>
      match parseStringBody rest.length rest with
      | none => none
      | some (k, rest2) =>
        match skipWs rest2 with
        | ':' :: rest3 =>
          match parseValue fuel rest3 with
          | none => none
          | some (v, rest4) =>
            match skipWs rest4 with
            | ',' :: rest5 => parseMembers fuel rest5 ((k, v) :: acc)
            | '\x7d' :: rest5 => some (((k, v) :: acc).reverse, rest5)
            | _ => none
        | _ => none
    | _ => none

end

/-- `JSON.parse`: parse the whole string as a single JSON value. -/
def jsonParse (s : String) : Option JsonValue :=
  match parseValue (s.data.length + 1) s.data with
  | some (v, rest) => if (skipWs rest).isEmpty then some v else none
  | none => none

/-- `ensureString` from the source, with fuel standing in for JavaScript's
unbounded recursion (the only non-structural recursion is through
`JSON.parse`, which always yields a value smaller than its input, so the
`jsize`-based fuel of the wrapper never runs out). -/
def ensureStringGo : Nat → JsonValue → Option String
  | 0, _ => none
  | fuel + 1, v =>
    match v with
    | .str s =>
      let trimmed := jsTrim s
      let viaJson : Option String :=
        if (headIs trimmed.data '\x7b' || headIs trimmed.data '[') &&
            trimmed.data.contains '"' then
          match jsonParse trimmed with
          | some parsed =>
            match ensureStringGo fuel parsed with
            | some t => if 0 < t.length then some t else none
            | none => none
          | none => none
        else none
      match viaJson with
      | some t => some t
      | none =>
        match extractTextFromPythonLiteral s with
        | some t => some t
        | none => some (normalizeEscapes s)
    | .arr xs =>
      let joined := strConcat (xs.map (fun part =>
        match part with
        | .str t => t
        | _ =>
          match getField part "text" with
          | .str t => t
          | _ => ""))
      if 0 < joined.length then some joined else none
    | .obj _ =>
      match getField v "text" with
      | .str t => some t
      | _ =>
        match getField v "content" with
        | .arr xs => ensureStringGo fuel (.arr xs)
        | .str s => ensureStringGo fuel (.str s)
        | _ =>
          match getField v "delta" with
          | .arr xs => ensureStringGo fuel (.arr xs)
          | _ =>
            match getField v "choices" with
            | .arr (choice :: _) =>
              let d := getField choice "delta"
              if !(isFalsy d) then ensureStringGo fuel d
              else
                let m := getField choice "message"
                if !(isFalsy m) then ensureStringGo fuel m
                else none
            | _ => none
    | _ => none

/-- The payload normalizer `ensureString`. -/
def ensureString (v : JsonValue) : Option String :=
  ensureStringGo (jsize v + 1) v

/-- The ranked candidate fields probed by `extractStreamText`. -/
def streamCandidates (payload : JsonValue) : List JsonValue :=
  [ getField (getField payload "chunk") "content",
    getField (getField payload "chunk") "text",
    getField (getField payload "chunk") "delta",
    getField payload "chunk",
    getField (getField (getField payload "data") "chunk") "content",
    getField (getField (getField payload "data") "chunk") "text",
    getField (getField (getField payload "data") "chunk") "delta",
    getField (getField payload "data") "chunk",
    getField (getField payload "data") "content",
    getField (getField payload "data") "text",
    getField payload "delta",
    getField payload "content" ]

/-- The ranked candidate fields probed by `extractFinalText`. -/
def finalCandidates (payload : JsonValue) : List JsonValue :=
  [ getField (getField (getField payload "data") "output") "content",
    getField (getField (getField payload "data") "output") "text",
    getField (getField payload "data") "output",
    getField (getField payload "data") "content",
    getField (getField payload "data") "text",
    getField (getField payload "output") "content",
    getField (getField payload "output") "text",
    getField payload "output",
    getField payload "content",
    getField payload "message",
    getField payload "delta" ]

/-- The candidate loop shared by both extraction entry points: return the
first candidate that normalizes to non-empty text. -/
def firstExtract : List JsonValue → Option String
  | [] => none
  | c :: rest =>
    match ensureString c with
    | some t => if 0 < t.length then some t else firstExtract rest
    | none => firstExtract rest

/-- `extractStreamText` from the source. -/
def extractStreamText (payload : JsonValue) : Option String :=
  if isFalsy payload then none
  else firstExtract (streamCandidates payload)

/-- `extractFinalText` from the source. -/
def extractFinalText (payload : JsonValue) : Option String :=
  if isFalsy payload then none
  else firstExtract (finalCandidates payload)

/-- A Part of a turn: a tagged segment (`text`, `reasoning`, ...) whose
`text` field may be absent (`undefined` in the source). -/
structure MsgPart where
  ptype : String
  text : Option String
deriving DecidableEq, Repr

/-- A conversation turn (`ChatMessage`).  The `metadata` timestamp of the
source carries no behaviour and is omitted. -/
structure ChatMessage where
  id : String
  role : String
  parts : List MsgPart
deriving DecidableEq, Repr

/-- `parts.findIndex(part => part?.type === partType)`, as an optional
index. -/
def findPartIdx (pt : String) : List MsgPart → Option Nat
  | [] => none
  | p :: rest =>
    if p.ptype = pt then some 0
    else (findPartIdx pt rest).map (· + 1)

/-- The accumulated text of the first Part of the given type: the source's
`idx >= 0 && typeof parts[idx].text === 'string' ? parts[idx].text : ''`. -/
def partsTextOf (pt : String) (parts : List MsgPart) : String :=
  match findPartIdx pt parts with
  | some idx =>
    match parts[idx]? with
    | some p =>
      match p.text with
      | some t => t
      | none => ""
    | none => ""
  | none => ""

/-- The accumulated text of the first Part of the given type on a turn. -/
def partTextOf (pt : String) (m : ChatMessage) : String :=
  partsTextOf pt m.parts

/-- The splice of `updateLastAssistantPart`: replace the Part at the found
index (the source's `[...slice, {...parts[idx], type, text}, ...slice]`,
with `parts[idx] ?? { type }` as the spread base) or append a new Part. -/
def updatedParts (partType : String) (nextText : String)
    (parts : List MsgPart) : List MsgPart :=
  match findPartIdx partType parts with
  | some idx =>
    let base :=
      match parts[idx]? with
      | some p => p
      | none => { ptype := partType, text := none }
    parts.set idx { base with ptype := partType, text := some nextText }
  | none => parts ++ [{ ptype := partType, text := some nextText }]

/-- `updateLastAssistantPart` from the source: update or create the Part
of the given type on the last assistant turn.  No-op when the transcript
is empty, when the last turn is not an assistant turn, or when the updated
text equals the previous text (the source then returns the same array
reference, which is what skips the re-render). -/
def updateLastAssistantPart (partType : String) (updater : String → String)
    (msgs : List ChatMessage) : List ChatMessage :=
  match msgs.getLast? with
  | none => msgs
  | some lastMessage =>
    if lastMessage.role ≠ "assistant" then msgs
    else
      let previousText := partsTextOf partType lastMessage.parts
      let nextText := updater previousText
      if nextText = previousText then msgs
      else msgs.dropLast ++
        [{ lastMessage with
            parts := updatedParts partType nextText lastMessage.parts }]

/-- The session state owned by the chat component: status string,
transcript, conversation id, whether an EventSource handle is held
(`eventSourceRef.current !== null`), the raw event log (`dataStream`),
and the toast notifications shown so far (most recent last). -/
structure SessionState where
  status : String
  messages : List ChatMessage
  conversationId : Option String
  streamOpen : Bool
  dataStream : List JsonValue
  toasts : List JsonValue

/-- The event types treated as streaming text deltas. -/
def deltaEventNames : List String :=
  ["on_chat_model_stream", "on_llm_stream", "on_chat_model_stream_chunk",
   "text_delta", "delta", "chunk"]

/-- `(payload.event ?? payload.type ?? "").toString()`. -/
def eventTypeOf (payload : JsonValue) : String :=
  jsToString (nullish (getField payload "event")
    (nullish (getField payload "type") (JsonValue.str "")))

/-- The reasoning-delta probe:
`payload?.chunk?.reasoning ?? payload?.data?.chunk?.reasoning ??
 (payload?.type === "reasoning-delta" ? payload?.delta : undefined)`. -/
def reasoningDeltaOf (payload : JsonValue) : JsonValue :=
  nullish (getField (getField payload "chunk") "reasoning")
    (nullish (getField (getField (getField payload "data") "chunk") "reasoning")
      (if isStrEq (getField payload "type") "reasoning-delta" then
        getField payload "delta"
      else JsonValue.jsUndefined))

/-- The final-reasoning probe of the `on_chat_model_end` branch:
`payload?.data?.output?.reasoning ?? payload?.output?.reasoning`. -/
def finalReasoningOf (payload : JsonValue) : JsonValue :=
  nullish (getField (getField (getField payload "data") "output") "reasoning")
    (getField (getField payload "output") "reasoning")

/-- Default toast shown by the `on_chain_error` branch. -/
def chainErrorFallback : String := "生成失败，请稍后重试。"

/-- `handleStreamPayload` from the source, as a transition on the session
state (the `toast` call is modelled by appending to `toasts`). -/
def handleStreamPayload (st : SessionState) (payload : JsonValue) : SessionState :=
  if isFalsy payload then st
  else
    let st1 := { st with dataStream := st.dataStream ++ [payload] }
    let eventType := eventTypeOf payload
    if eventType ∈ deltaEventNames then
      let st2 :=
        match extractStreamText payload with
        | some delta =>
          if 0 < delta.length then
            { st1 with
                messages := updateLastAssistantPart "text"
                  (fun previous => previous ++ delta) st1.messages }
          else st1
        | none => st1
      match reasoningDeltaOf payload with
      | .str rDelta =>
        if 0 < rDelta.length then
          { st2 with
              messages := updateLastAssistantPart "reasoning"
                (fun previous => previous ++ rDelta) st2.messages }
        else st2
      | _ => st2
    else if eventType = "on_chat_model_end" then
      let st2 :=
        match extractFinalText payload with
        | some finalContent =>
          if 0 < finalContent.length then
            { st1 with
                messages := updateLastAssistantPart "text"
                  (fun _ => finalContent) st1.messages }
          else st1
        | none => st1
      match finalReasoningOf payload with
      | .str finalReasoning =>
        if 0 < finalReasoning.length then
          { st2 with
              messages := updateLastAssistantPart "reasoning"
                (fun _ => finalReasoning) st2.messages }
        else st2
      | _ => st2
    else if eventType = "on_chain_error" then
      let message :=
        nullish (getField (getField payload "data") "message")
          (nullish (getField (getField payload "data") "error")
            (JsonValue.str chainErrorFallback))
      { st1 with toasts := st1.toasts ++ [message], status := "ready" }
    else st1

/-- A callback invocation made by the stream adapter for one frame. -/
inductive StreamCallback where
  | event (payload : JsonValue) (channel : String)
  | complete

/-- The default final-agent allowlist of `openConversationStream`. -/
def defaultFinalAgents : List String := ["ReAct Agent", "Supervisor Agent"]

/-- Resolve the configured final-agent set (`opts.finalAgents ?? [...]`). -/
def resolveFinalAgents (opt : Option (List String)) : List String :=
  opt.getD defaultFinalAgents

/-- The default subscribed channel list (`DEFAULT_SSE_EVENTS`). -/
def defaultSseEvents : List String :=
  ["message", "on_chat_model_stream", "on_llm_stream",
   "on_chat_model_stream_chunk", "on_chat_model_start", "on_chat_model_end",
   "on_tool_start", "on_tool_end", "on_chain_start", "on_chain_end",
   "on_chain_error"]

/-- The per-frame listener `forward(name)` of `openConversationStream`:
the callbacks it invokes for one frame, in order.  A frame with empty or
absent data, or whose data fails to parse as JSON, invokes none. -/
def forward (finalAgents : List String) (name : String)
    (data : Option String) : List StreamCallback :=
  match data with
  | none => []
  | some d =>
    if d = "" then []
    else
      match jsonParse d with
      | none => []
      | some payload =>
        StreamCallback.event payload name ::
          (if isStrEq (getField payload "event") "on_chain_end" &&
              (match getField payload "name" with
               | .str s => finalAgents.contains s
               | _ => false) then
            [StreamCallback.complete]
          else [])

/-- A frame as delivered to a subscribed channel: channel name and the
frame's data field (absent or a string). -/
def processFrames (finalAgents : List String) :
    List (String × Option String) → List StreamCallback
  | [] => []
  | f :: rest => forward finalAgents f.1 f.2 ++ processFrames finalAgents rest

/-- The `cleanup` closure of `openStream`: close and discard the stream
handle and return the status to `ready`.  Both the adapter error callback
and the completion callback run exactly this. -/
def cleanupStream (st : SessionState) : SessionState :=
  { st with streamOpen := false, status := "ready" }

/-- The session's reaction to a transport error while a stream is open
(`onError: () => cleanup()`). -/
def onTransportError (st : SessionState) : SessionState :=
  cleanupStream st

/-- `openStream` on the success path: close any prior handle, open the
new one and move the status to `streaming` (no-op on an empty id).  The
construction of the EventSource is assumed to succeed; the synchronous
failure branch of the source shows a connect-failure toast instead. -/
def openStreamModel (cid : String) (st : SessionState) : SessionState :=
  if cid = "" then st
  else { st with streamOpen := true, status := "streaming" }

/-- Outcome of one REST call (a thrown error carries its message). -/
inductive RestOutcome where
  | ok (data : JsonValue)
  | err (message : String)

/-- The REST collaborator's responses, supplied as an environment. -/
structure RestEnv where
  postConversations : RestOutcome
  postMessages : RestOutcome

/-- Toast text when a message is sent while a reply is still streaming. -/
def noticeWait : String := "请等待当前回复结束后再发送"

/-- Toast text when the message content is empty after trimming. -/
def noticeEmpty : String := "请输入要发送的内容"

/-- Error text thrown when the backend returns no conversation id. -/
def noticeNoConv : String := "后端未返回会话信息"

/-- The concatenated text content of a message's parts:
filter text parts with string text, join with newlines, trim. -/
def contentOf (msgParts : List MsgPart) : String :=
  jsTrim (String.intercalate "\n"
    ((msgParts.filter (fun p => p.ptype == "text" && p.text.isSome)).map
      (fun p => p.text.getD "")))

/-- `appendUserAndAssistant` from `sendMessage`: append the user turn and,
when an assistant id was returned, an empty-text assistant placeholder. -/
def appendUserAndAssistant (freshId : String) (msgParts : List MsgPart)
    (userMessageId : String) (assistantMessageId : Option String)
    (msgs : List ChatMessage) : List ChatMessage :=
  let userMessage : ChatMessage :=
    { id := if userMessageId = "" then freshId else userMessageId,
      role := "user", parts := msgParts }
  let withUser := msgs ++ [userMessage]
  match assistantMessageId with
  | some aid =>
    withUser ++ [{ id := aid, role := "assistant",
                   parts := [{ ptype := "text", text := some "" }] }]
  | none => withUser

/-- Read an id-like field: nullish falls back to a fresh UUID, any other
value is kept (stringified; the backend sends strings). -/
def idFieldOr (freshId : String) (v : JsonValue) : String :=
  match v with
  | .null => freshId
  | .jsUndefined => freshId
  | v2 => jsToString v2

/-- `sendMessage` from the source, as a transition on the session state.
`freshId` stands for `generateUUID()`; the returned list names the REST
calls issued.  The `window.history.replaceState` call only touches the
browser URL and is not modelled. -/
def sendMessage (env : RestEnv) (freshId : String) (st : SessionState)
    (msgParts : List MsgPart) : SessionState × List String :=
  if st.status ≠ "ready" then
    ({ st with toasts := st.toasts ++ [JsonValue.str noticeWait] }, [])
  else
    let content := contentOf msgParts
    if content = "" then
      ({ st with toasts := st.toasts ++ [JsonValue.str noticeEmpty] }, [])
    else
      let st1 := { st with status := "submitted", dataStream := [] }
      match st.conversationId with
      | none =>
        let calls := ["POST /conversations"]
        match env.postConversations with
        | .err m =>
          ({ st1 with
              status := "ready"
              toasts := st1.toasts ++ [JsonValue.str m] }, calls)
        | .ok data =>
          let cidv := getField data "conversation_id"
          if isFalsy cidv then
            ({ st1 with
                status := "ready"
                toasts := st1.toasts ++ [JsonValue.str noticeNoConv] }, calls)
          else
            let newCid := jsToString cidv
            let st2 := { st1 with conversationId := some newCid }
            let ms := getField data "message_start"
            let userMessageId := idFieldOr freshId (getField ms "user_message_id")
            let aidv := getField ms "assistant_message_id"
            let assistantMessageId :=
              if isFalsy aidv then none else some (jsToString aidv)
            let st3 := { st2 with
                messages := appendUserAndAssistant freshId msgParts userMessageId
                  assistantMessageId st2.messages }
            if !(isFalsy (getField data "started")) && assistantMessageId.isSome then
              (openStreamModel newCid st3, calls)
            else
              ({ st3 with status := "ready" }, calls)
      | some cid =>
        let calls := ["POST /conversations/messages"]
        match env.postMessages with
        | .err m =>
          ({ st1 with
              status := "ready"
              toasts := st1.toasts ++ [JsonValue.str m] }, calls)
        | .ok data =>
          let userMessageId := idFieldOr freshId (getField data "user_message_id")
          let aidv := getField data "assistant_message_id"
          let assistantMessageId :=
            if isFalsy aidv then none else some (jsToString aidv)
          let st3 := { st1 with
              messages := appendUserAndAssistant freshId msgParts userMessageId
                assistantMessageId st1.messages }
          if assistantMessageId.isSome then (openStreamModel cid st3, calls)
          else ({ st3 with status := "ready" }, calls)

/-- Outcome of the history fetch. -/
inductive FetchResult where
  | ok (data : JsonValue)
  | err (message : String)

/-- Match of the regex `HTTP\s+404` at the head of the input. -/
def http404At (cs : List Char) : Bool :=
  match cs with
  | 'H' :: 'T' :: 'T' :: 'P' :: rest =>
    match rest with
    | c :: _ =>
      isJsSpace c &&
        (match rest.dropWhile isJsSpace with
         | '4' :: '0' :: '4' :: _ => true
         | _ => false)
    | [] => false
  | _ => false

/-- Scan for `HTTP\s+404` anywhere in the input. -/
def http404Scan : List Char → Bool
  | [] => false
  | c :: rest => http404At (c :: rest) || http404Scan rest

/-- `/HTTP\s+404/.test(message)`: how `loadMessages` detects a 404. -/
def hasHttp404 (s : String) : Bool :=
  http404Scan s.data

/-- `mapBackendMessage` from the source.  `events` is expected to be an
array or nullish; the reasoning join stringifies non-string entries as
`Array.prototype.join` does. -/
def mapBackendMessage (freshId : String) (item : JsonValue) : ChatMessage :=
  let content :=
    match getField item "content" with
    | .str s => s
    | _ => ""
  let reasoning : Option String :=
    match getField item "events" with
    | .arr evs =>
      some (String.intercalate "\n" (evs.map (fun e =>
        jsToString (nullish
          (getField (getField (getField e "data") "output") "reasoning")
          (JsonValue.str "")))))
    | _ => none
  { id := idFieldOr freshId (getField item "message_id"),
    role := idFieldOr "assistant" (getField item "role"),
    parts := [{ ptype := "reasoning", text := reasoning },
              { ptype := "text", text := some content }] }

/-- `loadMessages` from the source, as a transition on the session state
given the fetch outcome: on success replace the transcript with the
mapped items; on an error whose message matches `HTTP\s+404` reset the
transcript to the empty list with no notification; on any other error
show a notification and leave the transcript unchanged. -/
def loadMessages (freshId : String) (st : SessionState) (cid : String)
    (result : FetchResult) : SessionState :=
  if cid = "" then st
  else
    match result with
    | .ok data =>
      let items :=
        match getField data "items" with
        | .arr xs => xs
        | _ => []
      { st with messages := items.map (mapBackendMessage freshId) }
    | .err m =>
      if hasHttp404 m then { st with messages := [] }
      else { st with toasts := st.toasts ++ [JsonValue.str m] }

/-! ### Helper lemmas about the Part list operations -/

lemma partsTextOf_nil (pt : String) : partsTextOf pt [] = "" := rfl

lemma partsTextOf_cons (pt : String) (x : MsgPart) (xs : List MsgPart) :
    partsTextOf pt (x :: xs) =
      if x.ptype = pt then x.text.getD "" else partsTextOf pt xs := by
  by_cases h : x.ptype = pt
  · cases ht : x.text <;> simp [partsTextOf, findPartIdx, h, ht]
  · simp only [partsTextOf, findPartIdx, if_neg h]
    cases h2 : findPartIdx pt xs with
    | none => simp
    | some j => simp [List.getElem?_cons_succ]

lemma updatedParts_cons_skip (pt nt : String) (x : MsgPart)
    (xs : List MsgPart) (h : ¬ x.ptype = pt) :
    updatedParts pt nt (x :: xs) = x :: updatedParts pt nt xs := by
  cases h2 : findPartIdx pt xs with
  | none => simp [updatedParts, findPartIdx, h, h2]
  | some j => simp [updatedParts, findPartIdx, h, h2, List.getElem?_cons_succ]

lemma partsTextOf_updatedParts_self (pt nt : String) (parts : List MsgPart) :
    partsTextOf pt (updatedParts pt nt parts) = nt := by
  induction parts with
  | nil => simp [updatedParts, findPartIdx, partsTextOf_cons]
  | cons x xs ih =>
    by_cases h : x.ptype = pt
    · simp [updatedParts, findPartIdx, h, partsTextOf_cons]
    · rw [updatedParts_cons_skip pt nt x xs h, partsTextOf_cons, if_neg h]
      exact ih

lemma partsTextOf_updatedParts_other (pt nt q : String) (hq : q ≠ pt)
    (parts : List MsgPart) :
    partsTextOf q (updatedParts pt nt parts) = partsTextOf q parts := by
  have hpq : ¬ pt = q := fun h => hq h.symm
  induction parts with
  | nil => simp [updatedParts, findPartIdx, partsTextOf_cons, hpq]
  | cons x xs ih =>
    by_cases h : x.ptype = pt
    · have hxq : ¬ x.ptype = q := by rw [h]; exact hpq
      simp [updatedParts, findPartIdx, h, partsTextOf_cons, hxq, hpq]
    · rw [updatedParts_cons_skip pt nt x xs h, partsTextOf_cons, partsTextOf_cons,
        ih]

lemma getLast?_some_ne_nil {msgs : List ChatMessage} {m : ChatMessage}
    (h : msgs.getLast? = some m) : msgs ≠ [] := by
  intro hn
  subst hn
  simp at h

lemma updateLast_spec (pt : String) (u : String → String)
    (msgs : List ChatMessage) (m : ChatMessage)
    (hlast : msgs.getLast? = some m) (hrole : m.role = "assistant") :
    ∃ m2, (updateLastAssistantPart pt u msgs).getLast? = some m2 ∧
      m2.id = m.id ∧ m2.role = m.role ∧
      partTextOf pt m2 = u (partTextOf pt m) ∧
      ∀ q, q ≠ pt → partTextOf q m2 = partTextOf q m := by
  have hr : ¬ m.role ≠ "assistant" := by simp [hrole]
  by_cases heq : u (partsTextOf pt m.parts) = partsTextOf pt m.parts
  · refine ⟨m, ?_, rfl, rfl, ?_, fun q _ => rfl⟩
    · rw [updateLastAssistantPart, hlast]
      simp only [if_neg hr, if_pos heq]
      exact hlast
    · exact heq.symm
  · refine ⟨{ m with parts := updatedParts pt (u (partsTextOf pt m.parts)) m.parts },
      ?_, rfl, rfl, ?_, ?_⟩
    · rw [updateLastAssistantPart, hlast]
      simp only [if_neg hr, if_neg heq]
      exact List.getLast?_concat _
    · exact partsTextOf_updatedParts_self pt _ m.parts
    · intro q hq
      exact partsTextOf_updatedParts_other pt _ q hq m.parts

lemma updateLast_frame (pt : String) (u : String → String)
    (msgs : List ChatMessage) :
    (updateLastAssistantPart pt u msgs).dropLast = msgs.dropLast ∧
      (updateLastAssistantPart pt u msgs).length = msgs.length := by
  cases hlast : msgs.getLast? with
  | none => rw [updateLastAssistantPart, hlast]; exact ⟨rfl, rfl⟩

  | some m =>
    have hne : msgs ≠ [] := getLast?_some_ne_nil hlast
    have hpos : 0 < msgs.length := List.length_pos.mpr hne
    by_cases hr : m.role ≠ "assistant"
    · rw [updateLastAssistantPart, hlast]
      simp only [if_pos hr]
      exact ⟨trivial, trivial⟩
    · by_cases heq : u (partsTextOf pt m.parts) = partsTextOf pt m.parts
      · rw [updateLastAssistantPart, hlast]
        simp only [if_neg hr, if_pos heq]
        exact ⟨trivial, trivial⟩
      · rw [updateLastAssistantPart, hlast]
        simp only [if_neg hr, if_neg heq]
        constructor
        · exact List.dropLast_concat
        · rw [List.length_append, List.length_dropLast]
          simp only [List.length_cons, List.length_nil]
          omega
          
lemma updateLast_noop_empty (pt : String) (u : String → String) :
    updateLastAssistantPart pt u [] = [] := rfl

lemma updateLast_noop_role (pt : String) (u : String → String)
    (msgs : List ChatMessage) (m : ChatMessage)
    (hlast : msgs.getLast? = some m) (hrole : m.role ≠ "assistant") :
    updateLastAssistantPart pt u msgs = msgs := by
  simp only [updateLastAssistantPart, hlast, if_pos hrole]

lemma updateLast_append_nil (pt : String) (msgs : List ChatMessage) :
    updateLastAssistantPart pt (fun previous => previous ++ "") msgs = msgs := by
  cases hlast : msgs.getLast? with
  | none => simp only [updateLastAssistantPart, hlast]
  | some m =>
    by_cases hr : m.role ≠ "assistant"
    · simp only [updateLastAssistantPart, hlast, if_pos hr]
    · have heq : partsTextOf pt m.parts ++ "" = partsTextOf pt m.parts :=
        String.append_empty _
      simp only [updateLastAssistantPart, hlast, if_neg hr, if_pos heq]

/-! ### Helper lemmas about the extractors and event dispatch -/

lemma firstExtract_pos {cs : List JsonValue} {t : String}
    (h : firstExtract cs = some t) : 0 < t.length := by
  induction cs with
  | nil => simp [firstExtract] at h
  | cons c rest ih =>
    rw [firstExtract] at h
    cases hx : ensureString c with
    | none => rw [hx] at h; exact ih h
    | some s =>
      rw [hx] at h
      simp only at h
      by_cases hl : 0 < s.length
      · rw [if_pos hl] at h
        cases h
        exact hl
      · rw [if_neg hl] at h
        exact ih h

lemma extractStreamText_pos {p : JsonValue} {t : String}
    (h : extractStreamText p = some t) : 0 < t.length := by
  rw [extractStreamText] at h
  by_cases hf : isFalsy p
  · simp [hf] at h
  · simp only [hf, Bool.false_eq_true, if_false] at h
    exact firstExtract_pos h

lemma extractFinalText_pos {p : JsonValue} {t : String}
    (h : extractFinalText p = some t) : 0 < t.length := by
  rw [extractFinalText] at h
  by_cases hf : isFalsy p
  · simp [hf] at h
  · simp only [hf, Bool.false_eq_true, if_false] at h
    exact firstExtract_pos h

lemma firstExtract_none_or_pos (cs : List JsonValue) :
    firstExtract cs = none ∨
      ∃ t, firstExtract cs = some t ∧ 0 < t.length := by
  cases h : firstExtract cs with
  | none => exact Or.inl rfl
  | some t => exact Or.inr ⟨t, rfl, firstExtract_pos h⟩

lemma eventTypeOf_of_falsy {p : JsonValue} (h : isFalsy p = true) :
    eventTypeOf p = "" := by
  cases p with
  | str s =>
    have hs : s = "" := by simpa [isFalsy] using h
    subst hs
    rfl
  | num lex => rfl
  | bool b => rfl
  | null => rfl
  | jsUndefined => rfl
  | arr xs => simp [isFalsy] at h
  | obj fs => simp [isFalsy] at h

lemma not_falsy_of_delta {p : JsonValue}
    (h : eventTypeOf p ∈ deltaEventNames) : isFalsy p = false := by
  cases hf : isFalsy p with
  | false => rfl
  | true =>
    rw [eventTypeOf_of_falsy hf] at h
    simp [deltaEventNames] at h

lemma not_falsy_of_end {p : JsonValue}
    (h : eventTypeOf p = "on_chat_model_end") : isFalsy p = false := by
  cases hf : isFalsy p with
  | false => rfl
  | true => rw [eventTypeOf_of_falsy hf] at h; exact absurd h (by decide)

lemma end_not_delta : "on_chat_model_end" ∉ deltaEventNames := by decide

/-- The messages-transform of the delta branch's text append (proof-layer
restatement of the corresponding piece of `handleStreamPayload`). -/
def applyTextDelta (p : JsonValue) (msgs : List ChatMessage) : List ChatMessage :=
  match extractStreamText p with
  | some delta =>
    if 0 < delta.length then
      updateLastAssistantPart "text" (fun previous => previous ++ delta) msgs
    else msgs
  | none => msgs

/-- The messages-transform of the delta branch's reasoning append. -/
def applyReasoningDelta (p : JsonValue) (msgs : List ChatMessage) : List ChatMessage :=
  match reasoningDeltaOf p with
  | .str rDelta =>
    if 0 < rDelta.length then
      updateLastAssistantPart "reasoning" (fun previous => previous ++ rDelta) msgs
    else msgs
  | _ => msgs

/-- The messages-transform of the end branch's final-text replace. -/
def applyFinalText (p : JsonValue) (msgs : List ChatMessage) : List ChatMessage :=
  match extractFinalText p with
  | some finalContent =>
    if 0 < finalContent.length then
      updateLastAssistantPart "text" (fun _ => finalContent) msgs
    else msgs
  | none => msgs

/-- The messages-transform of the end branch's final-reasoning replace. -/
def applyFinalReasoning (p : JsonValue) (msgs : List ChatMessage) : List ChatMessage :=
  match finalReasoningOf p with
  | .str finalReasoning =>
    if 0 < finalReasoning.length then
      updateLastAssistantPart "reasoning" (fun _ => finalReasoning) msgs
    else msgs
  | _ => msgs

lemma handle_delta_messages (st : SessionState) (p : JsonValue)
    (hmem : eventTypeOf p ∈ deltaEventNames) :
    (handleStreamPayload st p).messages =
      applyReasoningDelta p (applyTextDelta p st.messages) := by
  have hf : isFalsy p = false := not_falsy_of_delta hmem
  simp only [handleStreamPayload, hf, Bool.false_eq_true, if_false,
    if_pos hmem, applyTextDelta, applyReasoningDelta]
  cases hx : extractStreamText p <;> cases hr : reasoningDeltaOf p <;>
    simp only [hx, hr] <;> first | rfl | (split_ifs <;> rfl)

lemma handle_end_messages (st : SessionState) (p : JsonValue)
    (hev : eventTypeOf p = "on_chat_model_end") :
    (handleStreamPayload st p).messages =
      applyFinalReasoning p (applyFinalText p st.messages) := by
  have hf : isFalsy p = false := not_falsy_of_end hev
  have hnd : eventTypeOf p ∉ deltaEventNames := by
    rw [hev]; exact end_not_delta
  simp only [handleStreamPayload, hf, Bool.false_eq_true, if_false,
    if_neg hnd, if_pos hev, applyFinalText, applyFinalReasoning]
  cases hx : extractFinalText p <;> cases hr : finalReasoningOf p <;>
    simp only [hx, hr] <;> first | rfl | (split_ifs <;> rfl)

lemma applyText_spec (p : JsonValue) (msgs : List ChatMessage)
    (m : ChatMessage) (hlast : msgs.getLast? = some m)
    (hrole : m.role = "assistant") :
    ∃ m1, (applyTextDelta p msgs).getLast? = some m1 ∧
      m1.role = "assistant" ∧
      partTextOf "text" m1 =
        partTextOf "text" m ++ (extractStreamText p).getD "" := by
  unfold applyTextDelta
  cases hx : extractStreamText p with
  | some d =>
    have hd : 0 < d.length := extractStreamText_pos hx
    simp only [if_pos hd]
    obtain ⟨m1, h1, _, hrole1, htext, _⟩ :=
      updateLast_spec "text" (fun previous => previous ++ d) msgs m hlast hrole
    refine ⟨m1, h1, by rw [hrole1, hrole], ?_⟩
    rw [htext]
    rfl
  | none =>
    exact ⟨m, hlast, hrole, (String.append_empty _).symm⟩

lemma applyReasoning_text (p : JsonValue) (msgs : List ChatMessage)
    (m1 : ChatMessage) (hlast : msgs.getLast? = some m1)
    (hrole : m1.role = "assistant") :
    ∃ m2, (applyReasoningDelta p msgs).getLast? = some m2 ∧
      m2.role = "assistant" ∧ partTextOf "text" m2 = partTextOf "text" m1 := by
  unfold applyReasoningDelta
  cases hr : reasoningDeltaOf p
  case str r =>
    by_cases hrl : 0 < r.length
    · simp only [if_pos hrl]
      obtain ⟨m2, h2, _, hrole2, _, hother⟩ :=
        updateLast_spec "reasoning" (fun previous => previous ++ r) msgs m1
          hlast hrole
      exact ⟨m2, h2, by rw [hrole2, hrole], hother "text" (by decide)⟩
    · simp only [if_neg hrl]
      exact ⟨m1, hlast, hrole, rfl⟩
  all_goals exact ⟨m1, hlast, hrole, rfl⟩

lemma applyFinalReasoning_text (p : JsonValue) (msgs : List ChatMessage)
    (m1 : ChatMessage) (hlast : msgs.getLast? = some m1)
    (hrole : m1.role = "assistant") :
    ∃ m2, (applyFinalReasoning p msgs).getLast? = some m2 ∧
      m2.role = "assistant" ∧ partTextOf "text" m2 = partTextOf "text" m1 := by
  unfold applyFinalReasoning
  cases hr : finalReasoningOf p
  case str r =>
    by_cases hrl : 0 < r.length
    · simp only [if_pos hrl]
      obtain ⟨m2, h2, _, hrole2, _, hother⟩ :=
        updateLast_spec "reasoning" (fun _ => r) msgs m1 hlast hrole
      exact ⟨m2, h2, by rw [hrole2, hrole], hother "text" (by decide)⟩
    · simp only [if_neg hrl]
      exact ⟨m1, hlast, hrole, rfl⟩
  all_goals exact ⟨m1, hlast, hrole, rfl⟩

lemma handle_delta_step (st : SessionState) (p : JsonValue) (m : ChatMessage)
    (hmem : eventTypeOf p ∈ deltaEventNames)
    (hlast : st.messages.getLast? = some m) (hrole : m.role = "assistant") :
    ∃ m2, (handleStreamPayload st p).messages.getLast? = some m2 ∧
      m2.role = "assistant" ∧
      partTextOf "text" m2 =
        partTextOf "text" m ++ (extractStreamText p).getD "" := by
  rw [handle_delta_messages st p hmem]
  obtain ⟨m1, h1, hrole1, htext1⟩ := applyText_spec p st.messages m hlast hrole
  obtain ⟨m2, h2, hrole2, htext2⟩ :=
    applyReasoning_text p (applyTextDelta p st.messages) m1 h1 hrole1
  exact ⟨m2, h2, hrole2, by rw [htext2, htext1]⟩

lemma handle_end_step (st : SessionState) (p : JsonValue) (m : ChatMessage)
    (f : String) (hev : eventTypeOf p = "on_chat_model_end")
    (hfin : extractFinalText p = some f)
    (hlast : st.messages.getLast? = some m) (hrole : m.role = "assistant") :
    ∃ m2, (handleStreamPayload st p).messages.getLast? = some m2 ∧
      m2.role = "assistant" ∧ partTextOf "text" m2 = f := by
  rw [handle_end_messages st p hev]
  have hfpos : 0 < f.length := extractFinalText_pos hfin
  have hmid : applyFinalText p st.messages =
      updateLastAssistantPart "text" (fun _ => f) st.messages := by
    simp [applyFinalText, hfin, hfpos]
  obtain ⟨m1, h1, _, hrole1, htext, _⟩ :=
    updateLast_spec "text" (fun _ => f) st.messages m hlast hrole
  rw [hmid]
  obtain ⟨m2, h2, hrole2, htext2⟩ :=
    applyFinalReasoning_text p _ m1 h1 (by rw [hrole1, hrole])
  exact ⟨m2, h2, hrole2, by rw [htext2, htext]⟩

lemma handle_delta_fold (events : List JsonValue) :
    ∀ st (m : ChatMessage), st.messages.getLast? = some m →
      m.role = "assistant" →
      (∀ e ∈ events, eventTypeOf e ∈ deltaEventNames) →
      ∃ m2, (events.foldl handleStreamPayload st).messages.getLast? = some m2 ∧
        m2.role = "assistant" ∧
        partTextOf "text" m2 =
          partTextOf "text" m ++
            strConcat (events.filterMap extractStreamText) := by
  induction events with
  | nil =>
    intro st m hlast hrole _
    exact ⟨m, hlast, hrole, by simp [strConcat, String.append_empty]⟩
  | cons e rest ih =>
    intro st m hlast hrole hall
    have hmem : eventTypeOf e ∈ deltaEventNames := hall e (by simp)
    obtain ⟨m1, h1, hrole1, htext1⟩ := handle_delta_step st e m hmem hlast hrole
    obtain ⟨m2, h2, hrole2, htext2⟩ :=
      ih (handleStreamPayload st e) m1 h1 hrole1
        (fun x hx => hall x (List.mem_cons_of_mem e hx))
    rw [List.foldl_cons]
    refine ⟨m2, h2, hrole2, ?_⟩
    rw [htext2, htext1]
    cases hx : extractStreamText e with
    | some d => simp [List.filterMap_cons, hx, strConcat, String.append_assoc]
    | none => simp [List.filterMap_cons, hx, String.append_empty]

/-! ### Bridging lemmas for the adapter's completion condition -/

lemma isStrEq_iff (v : JsonValue) (t : String) :
    isStrEq v t = true ↔ v = JsonValue.str t := by
  cases v <;> simp [isStrEq]

lemma completeCond_iff (finalAgents : List String) (p : JsonValue) :
    (isStrEq (getField p "event") "on_chain_end" &&
      (match getField p "name" with
       | .str s => finalAgents.contains s
       | _ => false)) = true ↔
      (getField p "event" = JsonValue.str "on_chain_end" ∧
        ∃ s, getField p "name" = JsonValue.str s ∧ s ∈ finalAgents) := by
  rw [Bool.and_eq_true, isStrEq_iff]
  cases hn : getField p "name" <;> simp [List.elem_iff]

lemma jsonParse_empty : jsonParse "" = none := rfl

/-- C2.  For every successfully parsed frame, the completion callback is
invoked iff the payload's `event` field equals `"on_chain_end"` and its
`name` field is a member of the configured final-agent set (the default,
`resolveFinalAgents none`, being `["ReAct Agent", "Supervisor Agent"]`);
a payload whose `name` lies outside the set never invokes it. -/
theorem c2_completion_iff_chain_end_and_final_agent :
    ∀ (finalAgents : List String) (channel d : String) (p : JsonValue),
      jsonParse d = some p →
      (StreamCallback.complete ∈ forward finalAgents channel (some d) ↔
        (getField p "event" = JsonValue.str "on_chain_end" ∧
          ∃ s, getField p "name" = JsonValue.str s ∧ s ∈ finalAgents)) := by
  intro fa channel d p hp
  have hd : ¬ d = "" := by
    intro h
    rw [h, jsonParse_empty] at hp
    cases hp
  rw [forward]
  simp only [if_neg hd, hp]
  rw [← completeCond_iff fa p]
  by_cases hc : (isStrEq (getField p "event") "on_chain_end" &&
      (match getField p "name" with
       | .str s => fa.contains s
       | _ => false)) = true
  · simp [hc]
  · simp [hc]

/-- Witness for C2 at a concrete frame on the default final-agent set. -/
def c2Frame : String :=
  "\x7b\"event\": \"on_chain_end\", \"name\": \"ReAct Agent\"\x7d"

/-- The parse of `c2Frame`. -/
def c2Payload : JsonValue :=
  .obj [("event", .str "on_chain_end"), ("name", .str "ReAct Agent")]

theorem c2_completion_witness :
    StreamCallback.complete ∈
      forward (resolveFinalAgents none) "on_chain_end" (some c2Frame) :=
  (c2_completion_iff_chain_end_and_final_agent (resolveFinalAgents none)
      "on_chain_end" c2Frame c2Payload (by rfl)).mpr
    ⟨rfl, "ReAct Agent", rfl, by decide⟩

/-- C8.  Frames with empty or absent data, or with data that fails to
parse as JSON, invoke no callback at all, and the adapter processes the
surrounding frames exactly as if the bad frame were not there. -/
theorem c8_bad_frames_silently_ignored :
    ∀ (finalAgents : List String) (channel : String),
      forward finalAgents channel none = [] ∧
      forward finalAgents channel (some "") = [] ∧
      (∀ d, jsonParse d = none → forward finalAgents channel (some d) = []) ∧
      (∀ (fs1 fs2 : List (String × Option String)) (f : String × Option String),
        forward finalAgents f.1 f.2 = [] →
        processFrames finalAgents (fs1 ++ f :: fs2) =
          processFrames finalAgents fs1 ++ processFrames finalAgents fs2) := by
  intro fa ch
  refine ⟨rfl, rfl, ?_, ?_⟩
  · intro d hd
    rw [forward]
    by_cases h : d = ""
    · simp [h]
    · simp [h, hd]
  · intro fs1 fs2 f hf
    induction fs1 with
    | nil => simp [processFrames, hf]
    | cons g rest ih => simp only [List.cons_append, processFrames,
        List.append_eq, ih, List.append_assoc]

theorem c8_bad_frames_witness :
    forward defaultFinalAgents "message" (some "\x7boops") = [] :=
  (c8_bad_frames_silently_ignored defaultFinalAgents "message").2.2.1
    "\x7boops" (by rfl)

/-- C3, counterexample.  `ensureString` applied to the empty string
returns the empty string, not `null`, contradicting the claim that it
returns a non-empty string or null and never the empty string. -/
theorem c3_counterexample_empty_string :
    ensureString (JsonValue.str "") = some "" := rfl

/-- C3, amended.  `ensureString` terminates (it is total) and returns a
string or null; the result may be the empty string (see the
counterexample), though on the sequence branch a returned string is
always non-empty. -/
theorem c3_amended_string_or_null :
    ∀ v : JsonValue,
      (ensureString v = none ∨ ∃ s, ensureString v = some s) ∧
      (∀ xs, v = JsonValue.arr xs → ensureString v ≠ some "") := by
  intro v
  constructor
  · cases h : ensureString v with
    | none => exact Or.inl rfl
    | some s => exact Or.inr ⟨s, rfl⟩
  · intro xs hv h
    subst hv
    rw [ensureString] at h
    simp only [ensureStringGo] at h
    split at h
    · rename_i hlen
      rw [Option.some.injEq] at h
      rw [h] at hlen
      exact absurd hlen (by decide)
    · exact Option.noConfusion h

theorem c3_amended_witness :
    ensureString (JsonValue.arr [JsonValue.str "hi"]) ≠ some "" :=
  (c3_amended_string_or_null (JsonValue.arr [JsonValue.str "hi"])).2
    [JsonValue.str "hi"] rfl

/-- C10.  Both public extraction entry points are total and, for every
payload value (null and undefined included), return either null or a
string of length at least one — never the empty string. -/
theorem c10_extractors_null_or_nonempty :
    ∀ p : JsonValue,
      (extractStreamText p = none ∨
        ∃ s, extractStreamText p = some s ∧ 0 < s.length) ∧
      (extractFinalText p = none ∨
        ∃ s, extractFinalText p = some s ∧ 0 < s.length) := by
  intro p
  constructor
  · cases h : extractStreamText p with
    | none => exact Or.inl rfl
    | some s => exact Or.inr ⟨s, rfl, extractStreamText_pos h⟩
  · cases h : extractFinalText p with
    | none => exact Or.inl rfl
    | some s => exact Or.inr ⟨s, rfl, extractFinalText_pos h⟩

/-- Session state used by the C4 counterexample. -/
def c4State : SessionState :=
  { status := "streaming",
    messages := [{ id := "a1", role := "assistant", parts := [] }],
    conversationId := some "c1", streamOpen := true,
    dataStream := [], toasts := [] }

/-- A delta event whose text extraction yields nothing but which carries
a reasoning delta. -/
def c4Payload : JsonValue :=
  .obj [("event", .str "chunk"),
        ("data", .obj [("chunk", .obj [("reasoning", .str "r")])])]

/-- C4, counterexample.  A streaming delta event whose text extraction
yields no text can still mutate the transcript: a reasoning delta on the
same event appends to the reasoning Part, so the returned messages array
is not the same value. -/
theorem c4_counterexample_reasoning_delta :
    eventTypeOf c4Payload ∈ deltaEventNames ∧
    extractStreamText c4Payload = none ∧
    (handleStreamPayload c4State c4Payload).messages ≠ c4State.messages := by
  exact ⟨by decide, rfl, by decide⟩

/-- C4, amended.  A streaming delta event whose text extraction yields no
text and whose reasoning-delta probe yields no non-empty string leaves
the messages array unchanged (the source returns the same array
reference, so no re-render is triggered); likewise, appending the empty
string through the aggregator is a no-op returning the same array. -/
theorem c4_amended_empty_delta_noop :
    (∀ (st : SessionState) (p : JsonValue),
      eventTypeOf p ∈ deltaEventNames →
      extractStreamText p = none →
      (∀ r, reasoningDeltaOf p = JsonValue.str r → r = "") →
      (handleStreamPayload st p).messages = st.messages) ∧
    (∀ (pt : String) (msgs : List ChatMessage),
      updateLastAssistantPart pt (fun previous => previous ++ "") msgs = msgs) := by
  constructor
  · intro st p hmem hx hr
    rw [handle_delta_messages st p hmem]
    unfold applyTextDelta applyReasoningDelta
    simp only [hx]
    cases hrd : reasoningDeltaOf p
    case str r =>
      have hempty : r = "" := hr r hrd
      subst hempty
      simp
    all_goals rfl
  · intro pt msgs
    exact updateLast_append_nil pt msgs

/-- Witness payload for the amended C4: empty reasoning delta, no text. -/
def c4NoopPayload : JsonValue :=
  .obj [("event", .str "delta"),
        ("chunk", .obj [("reasoning", .str "")])]

theorem c4_amended_witness :
    (handleStreamPayload c4State c4NoopPayload).messages =
      c4State.messages :=
  c4_amended_empty_delta_noop.1 c4State c4NoopPayload (by decide) rfl
    (fun r h => (JsonValue.str.inj h).symm)

/-- C5.  Every aggregator mutation touches at most the last turn: the
prefix before the last turn and the length are always preserved, and the
operation is a complete no-op on an empty transcript or when the last
turn is not an assistant turn. -/
theorem c5_mutation_targets_last_turn_only :
    ∀ (pt : String) (u : String → String) (msgs : List ChatMessage),
      (updateLastAssistantPart pt u msgs).dropLast = msgs.dropLast ∧
      (updateLastAssistantPart pt u msgs).length = msgs.length ∧
      (msgs = [] → updateLastAssistantPart pt u msgs = msgs) ∧
      (∀ m, msgs.getLast? = some m → m.role ≠ "assistant" →
        updateLastAssistantPart pt u msgs = msgs) := by
  intro pt u msgs
  refine ⟨(updateLast_frame pt u msgs).1, (updateLast_frame pt u msgs).2,
    ?_, ?_⟩
  · intro h
    subst h
    exact updateLast_noop_empty pt u
  · intro m hlast hrole
    exact updateLast_noop_role pt u msgs m hlast hrole

theorem c5_witness :
    updateLastAssistantPart "text" (fun previous => previous ++ "x")
      [{ id := "u1", role := "user", parts := [] }] =
      [{ id := "u1", role := "user", parts := [] }] :=
  (c5_mutation_targets_last_turn_only "text" (fun previous => previous ++ "x")
      [{ id := "u1", role := "user", parts := [] }]).2.2.2
    { id := "u1", role := "user", parts := [] } rfl (by decide)

/-- C1.  While the last turn is an assistant turn, folding any sequence
of streaming delta events appends exactly the non-empty extracted deltas,
in arrival order, to that turn's text Part; a subsequent
`on_chat_model_end` event whose payload yields a non-null final text then
replaces the text Part with exactly that final text. -/
theorem c1_delta_concat_then_final_replace :
    ∀ (st : SessionState) (events : List JsonValue) (endEvt : JsonValue)
      (f : String) (m0 : ChatMessage),
      st.messages.getLast? = some m0 →
      m0.role = "assistant" →
      (∀ e ∈ events, eventTypeOf e ∈ deltaEventNames) →
      (∃ m1, (events.foldl handleStreamPayload st).messages.getLast? = some m1 ∧
        partTextOf "text" m1 =
          partTextOf "text" m0 ++
            strConcat (events.filterMap extractStreamText)) ∧
      (eventTypeOf endEvt = "on_chat_model_end" →
        extractFinalText endEvt = some f →
        ∃ m2, (handleStreamPayload (events.foldl handleStreamPayload st)
            endEvt).messages.getLast? = some m2 ∧
          partTextOf "text" m2 = f) := by
  intro st events endEvt f m0 hlast hrole hall
  obtain ⟨m1, h1, hrole1, htext1⟩ :=
    handle_delta_fold events st m0 hlast hrole hall
  refine ⟨⟨m1, h1, htext1⟩, ?_⟩
  intro hev hfin
  obtain ⟨m2, h2, _, htext2⟩ :=
    handle_end_step _ endEvt m1 f hev hfin h1 hrole1
  exact ⟨m2, h2, htext2⟩

/-- Session state used by the C1 witness (scenario 2 and 3 of the spec). -/
def c1State : SessionState :=
  { status := "streaming",
    messages :=
      [{ id := "u1", role := "user",
         parts := [{ ptype := "text", text := some "hi" }] },
       { id := "a1", role := "assistant",
         parts := [{ ptype := "text", text := some "" }] }],
    conversationId := some "c1", streamOpen := true,
    dataStream := [], toasts := [] }

/-- The assistant placeholder turn of `c1State`. -/
def c1Assistant : ChatMessage :=
  { id := "a1", role := "assistant",
    parts := [{ ptype := "text", text := some "" }] }

/-- First delta frame of the C1 witness. -/
def c1E1 : JsonValue :=
  .obj [("event", .str "on_chat_model_stream"),
        ("chunk", .obj [("content", .str "Hel")])]

/-- Second delta frame of the C1 witness. -/
def c1E2 : JsonValue :=
  .obj [("event", .str "on_chat_model_stream"),
        ("chunk", .obj [("content", .str "lo")])]

/-- Terminal frame of the C1 witness. -/
def c1End : JsonValue :=
  .obj [("event", .str "on_chat_model_end"),
        ("data", .obj [("output",
          .obj [("content", .str "Final answer"),
                ("reasoning", .str "because...")])])]

theorem c1_witness :
    ∃ m2, (handleStreamPayload
        ([c1E1, c1E2].foldl handleStreamPayload c1State)
        c1End).messages.getLast? = some m2 ∧
      partTextOf "text" m2 = "Final answer" :=
  (c1_delta_concat_then_final_replace c1State [c1E1, c1E2] c1End
      "Final answer" c1Assistant rfl rfl (by decide)).2 rfl rfl

/-- Session state used by the C6 counterexample: a stream is open and no
notification has been shown. -/
def c6State : SessionState :=
  { status := "streaming", messages := [], conversationId := some "c1",
    streamOpen := true, dataStream := [], toasts := [] }

/-- C6, counterexample.  On a transport error the error callback runs the
`cleanup` closure: the handle is closed and discarded and the status
returns to `ready`, but no toast is appended — no user-visible error
notification is surfaced, contradicting that part of the claim. -/
theorem c6_counterexample_no_notification :
    (onTransportError c6State).streamOpen = false ∧
    (onTransportError c6State).status = "ready" ∧
    (onTransportError c6State).toasts = [] :=
  ⟨rfl, rfl, rfl⟩

/-- C6, amended.  On a transport error the stream handle is closed and
discarded and the status returns to `ready`; the transcript, conversation
id, raw event log and notifications are all left untouched (in
particular, no error notification is shown on this path — the
connect-failure toast belongs to the synchronous open path only). -/
theorem c6_amended_transport_error_cleanup :
    ∀ st : SessionState,
      (onTransportError st).streamOpen = false ∧
      (onTransportError st).status = "ready" ∧
      (onTransportError st).toasts = st.toasts ∧
      (onTransportError st).messages = st.messages ∧
      (onTransportError st).conversationId = st.conversationId ∧
      (onTransportError st).dataStream = st.dataStream :=
  fun _ => ⟨rfl, rfl, rfl, rfl, rfl, rfl⟩

/-- C7.  `sendMessage` with a non-`ready` status or with content that is
empty after trimming shows one notice and changes nothing else: status,
transcript, conversation id, stream handle and raw event log are all
unchanged and no REST call is issued. -/
theorem c7_guard_rejects_without_state_change :
    ∀ (env : RestEnv) (freshId : String) (st : SessionState)
      (msgParts : List MsgPart),
      st.status ≠ "ready" ∨ contentOf msgParts = "" →
      ∃ notice,
        (sendMessage env freshId st msgParts).1.status = st.status ∧
        (sendMessage env freshId st msgParts).1.messages = st.messages ∧
        (sendMessage env freshId st msgParts).1.conversationId =
          st.conversationId ∧
        (sendMessage env freshId st msgParts).1.streamOpen = st.streamOpen ∧
        (sendMessage env freshId st msgParts).1.dataStream = st.dataStream ∧
        (sendMessage env freshId st msgParts).1.toasts =
          st.toasts ++ [JsonValue.str notice] ∧
        (sendMessage env freshId st msgParts).2 = [] := by
  intro env freshId st msgParts hrej
  by_cases hs : st.status ≠ "ready"
  · refine ⟨noticeWait, ?_⟩
    rw [sendMessage]
    simp [if_pos hs]
  · have hc : contentOf msgParts = "" := by
      cases hrej with
      | inl h => exact absurd h hs
      | inr h => exact h
    refine ⟨noticeEmpty, ?_⟩
    rw [sendMessage]
    simp [if_neg hs, if_pos hc]

/-- Session state used by the C7 witness: a reply is still streaming. -/
def c7State : SessionState :=
  { status := "streaming", messages := [], conversationId := none,
    streamOpen := true, dataStream := [], toasts := [] }

theorem c7_guard_witness :
    ∃ notice,
      (sendMessage ⟨.ok .null, .ok .null⟩ "id1" c7State
          [{ ptype := "text", text := some "hi" }]).1.status =
        c7State.status ∧
      (sendMessage ⟨.ok .null, .ok .null⟩ "id1" c7State
          [{ ptype := "text", text := some "hi" }]).1.messages =
        c7State.messages ∧
      (sendMessage ⟨.ok .null, .ok .null⟩ "id1" c7State
          [{ ptype := "text", text := some "hi" }]).1.conversationId =
        c7State.conversationId ∧
      (sendMessage ⟨.ok .null, .ok .null⟩ "id1" c7State
          [{ ptype := "text", text := some "hi" }]).1.streamOpen =
        c7State.streamOpen ∧
      (sendMessage ⟨.ok .null, .ok .null⟩ "id1" c7State
          [{ ptype := "text", text := some "hi" }]).1.dataStream =
        c7State.dataStream ∧
      (sendMessage ⟨.ok .null, .ok .null⟩ "id1" c7State
          [{ ptype := "text", text := some "hi" }]).1.toasts =
        c7State.toasts ++ [JsonValue.str notice] ∧
      (sendMessage ⟨.ok .null, .ok .null⟩ "id1" c7State
          [{ ptype := "text", text := some "hi" }]).2 = [] :=
  c7_guard_rejects_without_state_change ⟨.ok .null, .ok .null⟩ "id1" c7State
    [{ ptype := "text", text := some "hi" }] (Or.inl (by decide))

/-- C9.  A history fetch failing with a message matching `HTTP\s+404`
resets the transcript to the empty list without any notification; every
other fetch failure shows a notification and leaves the transcript
unchanged. -/
theorem c9_history_fetch_404_vs_other_failures :
    ∀ (freshId : String) (st : SessionState) (cid m : String),
      cid ≠ "" →
      (hasHttp404 m = true →
        loadMessages freshId st cid (FetchResult.err m) =
          { st with messages := [] }) ∧
      (hasHttp404 m = false →
        loadMessages freshId st cid (FetchResult.err m) =
          { st with toasts := st.toasts ++ [JsonValue.str m] }) := by
  intro freshId st cid m hcid
  constructor
  · intro h404
    rw [loadMessages]
    simp [hcid, h404]
  · intro h404
    rw [loadMessages]
    simp [hcid, h404]

/-- Session state used by the C9 witness. -/
def c9State : SessionState :=
  { status := "ready",
    messages := [{ id := "u1", role := "user", parts := [] }],
    conversationId := some "c1", streamOpen := false,
    dataStream := [], toasts := [] }

theorem c9_history_404_witness :
    loadMessages "fresh" c9State "c1" (FetchResult.err "HTTP 404 Not Found") =
      { c9State with messages := [] } :=
  (c9_history_fetch_404_vs_other_failures "fresh" c9State "c1"
      "HTTP 404 Not Found" (by decide)).1 (by decide)
